import Mathlib

/-!
Shallow embedding of the Game of Life core from `src/game/board.cpp` /
`include/game/board.h` (namespace `gol::game`) and of the seeding
collaborator `InitializeBoard` from `src/game_of_life/game_of_life.cpp`,
together with proofs of the specification claims about them.

Modelling conventions:
* `std::vector<bool>` rows become `List Bool`; the state matrix becomes
  `List (List Bool)`.
* `std::size_t` indices and dimensions become `Nat`; the `int` neighbor
  coordinates of `CountLiveNeighbors` become `Int` (in the C++ source a
  `std::size_t` plus a negative `int` offset wraps modulo `2^64` and is then
  narrowed back to `int`; for any board whose dimensions fit in `int` — the
  only boards the program ever builds — the resulting comparisons behave
  exactly like ideal integer arithmetic, which is what we use).
* Exceptions (`throw std::runtime_error`) become `Except String`.
-/

namespace GolSpec

abbrev CellStateVec := List Bool

abbrev CellStateMatrix := List CellStateVec

/-- The board class: `state_` is the 2D boolean state matrix. -/
structure GameOfLifeBoard where
  state_ : CellStateMatrix
deriving DecidableEq, Repr

namespace GameOfLifeBoard

/-- `Rows()`: `state_.size()`. -/
def Rows (b : GameOfLifeBoard) : Nat := b.state_.length

/-- `Cols()`: `state_[0].size()`.  In C++ this indexes row 0 without a
bounds check; it is only ever evaluated on boards with at least one row
(the checked embedding `tickChk` below accounts for that access). -/
def Cols (b : GameOfLifeBoard) : Nat := (b.state_.headD []).length

end GameOfLifeBoard

/-- Read one cell of a matrix, out-of-range reads defaulting to dead. -/
def get2 (m : CellStateMatrix) (i j : Nat) : Bool := (m.getD i []).getD j false

/-- `board[i][j]` as a read on the board. -/
def cellAt (b : GameOfLifeBoard) (i j : Nat) : Bool := get2 b.state_ i j

/-- `m[i][j] = v`: set one entry of the matrix (a no-op out of range,
which never happens on the in-range accesses the source performs). -/
def setCell (m : CellStateMatrix) (i j : Nat) (v : Bool) : CellStateMatrix :=
  m.set i ((m.getD i []).set j v)

/-- `board[i][j] = v` as an operation on the board (the mutable
`operator[]` access used by seeding). -/
def writeCell (b : GameOfLifeBoard) (i j : Nat) (v : Bool) : GameOfLifeBoard :=
  ⟨setCell b.state_ i j v⟩

/-- The constructor `GameOfLifeBoard(num_rows, num_cols)`:
`state_(num_rows, CellStateVec(num_cols, false))`.  The parameters are
`std::size_t`, i.e. the constructor's domain is the non-negative
integers. -/
def mkBoard (num_rows num_cols : Nat) : GameOfLifeBoard :=
  ⟨List.replicate num_rows (List.replicate num_cols false)⟩

/-- The eight 2D offsets of `kDirections`, in source order. -/
def kDirections : List (Int × Int) :=
  [(0, 1), (1, 0), (0, -1), (-1, 0), (1, 1), (1, -1), (-1, 1), (-1, -1)]

/-- The guarded read performed inside the loop of `CountLiveNeighbors`:
bounds test on the (possibly negative) neighbor coordinates, then the
cell read; an out-of-range coordinate contributes `false` (dead). -/
def cellAtI (b : GameOfLifeBoard) (r c : Int) : Bool :=
  if 0 ≤ r ∧ r < (b.Rows : Int) ∧ 0 ≤ c ∧ c < (b.Cols : Int) then
    cellAt b r.toNat c.toNat
  else false

/-- `CountLiveNeighbors(row, col)`: fold over the eight directions,
incrementing the counter whenever the guarded neighbor read is live. -/
def CountLiveNeighbors (b : GameOfLifeBoard) (row col : Nat) : Nat :=
  kDirections.foldl
    (fun n d =>
      if cellAtI b ((row : Int) + d.1) ((col : Int) + d.2) then n + 1 else n)
    0

/-- The per-cell body of the double loop in `Tick()`: reads `state_[i][j]`
and the neighbor count from the original board `b`, and writes into the
temporary `tmp` only in the branches that change the cell. -/
def tickCell (b : GameOfLifeBoard) (tmp : CellStateMatrix) (i j : Nat) :
    CellStateMatrix :=
  let n := CountLiveNeighbors b i j
  if cellAt b i j then
    if n < 2 then setCell tmp i j false
    else if 3 < n then setCell tmp i j false
    else tmp
  else if n = 3 then setCell tmp i j true
  else tmp

/-- The inner `for (j = 0; j < Cols(); ++j)` loop of `Tick()` for row `i`. -/
def tickRow (b : GameOfLifeBoard) (tmp : CellStateMatrix) (i : Nat) :
    CellStateMatrix :=
  (List.range b.Cols).foldl (fun t j => tickCell b t i j) tmp

/-- `Tick()`: copy `state_` into `tmp`, run the double loop mutating `tmp`
while all reads go to the untouched `state_`, then move `tmp` back. -/
def Tick (b : GameOfLifeBoard) : GameOfLifeBoard :=
  ⟨(List.range b.Rows).foldl (tickRow b) b.state_⟩

/-- Well-formedness: every row has exactly `Cols` entries (rectangular
matrix; automatically true of every validly constructed board). -/
def WF (b : GameOfLifeBoard) : Prop :=
  ∀ row ∈ b.state_, row.length = b.Cols

instance (b : GameOfLifeBoard) : Decidable (WF b) := by
  unfold WF; infer_instance

/-- The shape of a matrix: the list of its row lengths. -/
def shape (m : CellStateMatrix) : List Nat := m.map List.length

/-- The pure transition rule of the specification, as a function of the
pre-tick state of a cell and its live-neighbor count. -/
def nextCellState (alive : Bool) (n : Nat) : Bool :=
  if alive then decide (2 ≤ n ∧ n ≤ 3) else decide (n = 3)

/-- The value `Tick` is supposed to leave at cell `(i, j)`. -/
def newState (b : GameOfLifeBoard) (i j : Nat) : Bool :=
  nextCellState (cellAt b i j) (CountLiveNeighbors b i j)

/-- Length of row `i` (0 when `i` is out of range). -/
def rowLen (m : CellStateMatrix) (i : Nat) : Nat := (m.getD i []).length

/-- Modelled from the spec: the pure double-buffered reference transition —
build a fresh next grid in which every cell is the transition rule applied
to a frozen snapshot of the pre-tick grid. -/
def TickSpec (b : GameOfLifeBoard) : GameOfLifeBoard :=
  ⟨(List.range b.Rows).map fun i =>
    (List.range b.Cols).map fun j => newState b i j⟩

/-- Modelled from the spec: the offsets `(dr, dc)` with
`dr, dc ∈ {-1,0,1}` and `(dr, dc) ≠ (0, 0)`. -/
def specOffsets : List (Int × Int) :=
  ((([-1, 0, 1] : List Int).product ([-1, 0, 1] : List Int)).filter
    fun d => d ≠ (0, 0))

/-- Modelled from the spec: the number of live cells among the 8 positions
`(r+dr, c+dc)`, any position outside `[0, rows) × [0, cols)` counting as
dead. -/
def specNeighborCount (b : GameOfLifeBoard) (r c : Nat) : Nat :=
  specOffsets.countP fun d => cellAtI b ((r : Int) + d.1) ((c : Int) + d.2)

/-! ### Checked embedding of `Tick`

The same control flow as `Tick`, but with every grid access (`state_[0]`
inside `Cols()`, the guarded neighbor reads, `state_[i][j]`, and the
writes `tmp[i][j]`) performed through a bounds-checked `Option` access,
so that an out-of-bounds access would surface as `none`. -/

/-- Checked read `m[i][j]`. -/
def get2Chk (m : CellStateMatrix) (i j : Nat) : Option Bool :=
  m[i]?.bind fun row => row[j]?

/-- Checked write `m[i][j] = v`. -/
def setCellChk (m : CellStateMatrix) (i j : Nat) (v : Bool) :
    Option CellStateMatrix :=
  m[i]?.bind fun row =>
    if j < row.length then some (m.set i (row.set j v)) else none

/-- Checked `CountLiveNeighbors`: `Cols()` reads `state_[0]`, then each
direction performs its guarded read. -/
def CountLiveNeighborsChk (b : GameOfLifeBoard) (row col : Nat) :
    Option Nat :=
  b.state_[0]?.bind fun _ =>
    kDirections.foldlM
      (fun n d =>
        let nr : Int := (row : Int) + d.1
        let nc : Int := (col : Int) + d.2
        if 0 ≤ nr ∧ nr < (b.Rows : Int) ∧ 0 ≤ nc ∧ nc < (b.Cols : Int) then
          (get2Chk b.state_ nr.toNat nc.toNat).map fun cell =>
            if cell then n + 1 else n
        else some n)
      0

/-- Checked per-cell body of `Tick`'s double loop. -/
def tickCellChk (b : GameOfLifeBoard) (tmp : CellStateMatrix) (i j : Nat) :
    Option CellStateMatrix := do
  let n ← CountLiveNeighborsChk b i j
  let cur ← get2Chk b.state_ i j
  if cur then
    if n < 2 then setCellChk tmp i j false
    else if 3 < n then setCellChk tmp i j false
    else some tmp
  else if n = 3 then setCellChk tmp i j true
  else some tmp

/-- Checked `Tick`. -/
def TickChk (b : GameOfLifeBoard) : Option GameOfLifeBoard :=
  ((List.range b.Rows).foldlM
      (fun tmp i =>
        (List.range b.Cols).foldlM (fun t j => tickCellChk b t i j) tmp)
      b.state_).map GameOfLifeBoard.mk

/-! ### The seeding collaborator (`game_of_life.cpp`) -/

/-- `Position2D` from `game_of_life.cpp`: `x` is the column, `y` the row. -/
structure Position2D where
  x : Nat
  y : Nat
deriving DecidableEq, Repr

/-- The message of the `std::runtime_error` thrown by `InitializeBoard`. -/
def kOutOfBoundsMsg : String :=
  "position does not fit within board boundaries"

/-- `InitializeBoard(init_state, board)`: for each position, reject it if
it lies outside the board (the C++ code throws `std::runtime_error`,
modelled as `Except.error`), otherwise set `board[pos.y][pos.x] = true`. -/
def InitializeBoard (init_state : List Position2D)
    (board : GameOfLifeBoard) : Except String GameOfLifeBoard :=
  match init_state with
  | [] => .ok board
  | pos :: rest =>
    if board.Cols ≤ pos.x ∨ board.Rows ≤ pos.y then
      .error kOutOfBoundsMsg
    else InitializeBoard rest (writeCell board pos.y pos.x true)

/-- The board obtained by setting every seed in `l` live, in order. -/
def applySeeds (l : List Position2D) (b : GameOfLifeBoard) :
    GameOfLifeBoard :=
  l.foldl (fun bd q => writeCell bd q.y q.x true) b

/-- The boards reachable from construction with `mkBoard rows cols` by any
number of `Tick` operations and in-range cell writes. -/
inductive Reached (rows cols : Nat) : GameOfLifeBoard → Prop
| init : Reached rows cols (mkBoard rows cols)
| tick {b : GameOfLifeBoard} : Reached rows cols b →
    Reached rows cols (Tick b)
| write {b : GameOfLifeBoard} (i j : Nat) (v : Bool) :
    Reached rows cols b → i < rows → j < cols →
    Reached rows cols (writeCell b i j v)

/-- A concrete 1×1 board whose only live cell is at `(0, 0)` (used to
witness the no-wraparound part of the neighbor-count claim). -/
def originOnly : GameOfLifeBoard := ⟨[[true]]⟩

/-- A concrete 5×5 board whose only live cells are the horizontal triple
at row 2, columns 1–3 (used to witness the blinker claim). -/
def blinkerH5 : GameOfLifeBoard :=
  ⟨[[false, false, false, false, false],
    [false, false, false, false, false],
    [false, true,  true,  true,  false],
    [false, false, false, false, false],
    [false, false, false, false, false]]⟩

/-! ### Basic matrix lemmas -/

theorem length_setCell (m : CellStateMatrix) (i j : Nat) (v : Bool) :
    (setCell m i j v).length = m.length :=
  List.length_set m i _

theorem rowLen_setCell (m : CellStateMatrix) (i j : Nat) (v : Bool)
    (k : Nat) : rowLen (setCell m i j v) k = rowLen m k := by
  unfold rowLen setCell
  rw [List.getD_eq_getElem?_getD, List.getD_eq_getElem?_getD,
    List.getElem?_set]
  by_cases hik : i = k
  · subst hik
    by_cases hl : i < m.length
    · simp [hl, List.getD_eq_getElem?_getD]
    · simp [hl, List.getElem?_eq_none (Nat.le_of_not_lt hl)]
  · simp [hik]

theorem rowLen_eq (m : CellStateMatrix) (i : Nat) :
    rowLen m i = (m[i]?.getD []).length := by
  simp [rowLen, List.getD_eq_getElem?_getD]

theorem get2_eq (m : CellStateMatrix) (i j : Nat) :
    get2 m i j = ((m[i]?.getD [])[j]?.getD false) := by
  simp [get2, List.getD_eq_getElem?_getD]

theorem get2_setCell_self (m : CellStateMatrix) (i j : Nat) (v : Bool)
    (hi : i < m.length) (hj : j < rowLen m i) :
    get2 (setCell m i j v) i j = v := by
  rw [rowLen_eq] at hj
  simp only [get2_eq, setCell, List.getD_eq_getElem?_getD,
    List.getElem?_set]
  simp [hi, hj]
  have hj2 : j < m[i].length := by
    simpa [List.getElem?_eq_getElem hi] using hj
  simp [List.getElem?_set, hj2]

theorem get2_setCell_ne (m : CellStateMatrix) (i j i' j' : Nat) (v : Bool)
    (h : i ≠ i' ∨ j ≠ j') :
    get2 (setCell m i j v) i' j' = get2 m i' j' := by
  simp only [get2_eq, setCell, List.getD_eq_getElem?_getD,
    List.getElem?_set]
  by_cases hii : i = i'
  · subst hii
    have hjj : j ≠ j' := h.resolve_left (by simp)
    by_cases hl : i < m.length
    · simp [hl, List.getElem?_set_ne hjj]
    · simp [hl, List.getElem?_eq_none (Nat.le_of_not_lt hl)]
  · simp [hii]

theorem Cols_eq_rowLen (b : GameOfLifeBoard) :
    b.Cols = rowLen b.state_ 0 := by
  obtain ⟨m⟩ := b
  cases m <;> rfl

theorem WF_rowLen {b : GameOfLifeBoard} (hWF : WF b) {i : Nat}
    (hi : i < b.Rows) : rowLen b.state_ i = b.Cols := by
  have hmem : b.state_[i] ∈ b.state_ := List.getElem_mem hi
  have := hWF _ hmem
  rw [rowLen_eq, List.getElem?_eq_getElem hi]
  simpa using this

theorem length_tickCell (b : GameOfLifeBoard) (tmp : CellStateMatrix)
    (i j : Nat) : (tickCell b tmp i j).length = tmp.length := by
  simp only [tickCell]
  split_ifs <;> simp [length_setCell]

theorem rowLen_tickCell (b : GameOfLifeBoard) (tmp : CellStateMatrix)
    (i j k : Nat) : rowLen (tickCell b tmp i j) k = rowLen tmp k := by
  simp only [tickCell]
  split_ifs <;> simp [rowLen_setCell]

theorem get2_tickCell_ne (b : GameOfLifeBoard) (tmp : CellStateMatrix)
    (i j i' j' : Nat) (h : i ≠ i' ∨ j ≠ j') :
    get2 (tickCell b tmp i j) i' j' = get2 tmp i' j' := by
  simp only [tickCell]
  split_ifs <;> first | rfl | exact get2_setCell_ne tmp i j i' j' _ h

theorem get2_tickCell_self (b : GameOfLifeBoard) (tmp : CellStateMatrix)
    (i j : Nat) (hi : i < tmp.length) (hj : j < rowLen tmp i)
    (hval : get2 tmp i j = cellAt b i j) :
    get2 (tickCell b tmp i j) i j = newState b i j := by
  simp only [tickCell, newState, nextCellState]
  split_ifs with ha h2 h3 h4
  · rw [get2_setCell_self tmp i j false hi hj]
    symm
    simp only [decide_eq_false_iff_not]
    omega
  · rw [get2_setCell_self tmp i j false hi hj]
    symm
    simp only [decide_eq_false_iff_not]
    omega
  · rw [hval, ha]
    symm
    simp only [decide_eq_true_eq]
    omega
  · rw [get2_setCell_self tmp i j true hi hj]
    symm
    simpa using h4
  · rw [hval]
    have hfalse : cellAt b i j = false := by
      revert ha
      cases cellAt b i j <;> simp
    rw [hfalse]
    symm
    simpa using h4

/-- Characterization of the inner `j` loop of `Tick` after `m` iterations
on row `i`: it rewrites exactly the already-visited cells `(i, j')`,
`j' < m`, to their next state, and touches nothing else. -/
theorem tickRowAux (b : GameOfLifeBoard) (i : Nat) (hWF : WF b)
    (hi : i < b.Rows) (tmp : CellStateMatrix)
    (hlen : tmp.length = b.Rows)
    (hrow : ∀ k, rowLen tmp k = rowLen b.state_ k)
    (horig : ∀ j', get2 tmp i j' = cellAt b i j') :
    ∀ m, m ≤ b.Cols →
      ((List.range m).foldl (fun t j => tickCell b t i j) tmp).length
          = b.Rows ∧
      (∀ k,
        rowLen ((List.range m).foldl (fun t j => tickCell b t i j) tmp) k
          = rowLen b.state_ k) ∧
      (∀ i' j',
        get2 ((List.range m).foldl (fun t j => tickCell b t i j) tmp) i' j'
          = if i' = i ∧ j' < m then newState b i' j'
            else get2 tmp i' j') := by
  intro m
  induction m with
  | zero =>
    intro _
    refine ⟨hlen, hrow, ?_⟩
    intro i' j'
    simp
  | succ m ih =>
    intro hm
    have hm' : m ≤ b.Cols := Nat.le_of_succ_le hm
    obtain ⟨ihlen, ihrow, ihget⟩ := ih hm'
    rw [List.range_succ, List.foldl_append]
    simp only [List.foldl_cons, List.foldl_nil]
    set Fm := (List.range m).foldl (fun t j => tickCell b t i j) tmp with hFm
    refine ⟨?_, ?_, ?_⟩
    · rw [length_tickCell, ihlen]
    · intro k
      rw [rowLen_tickCell, ihrow]
    · intro i' j'
      by_cases hc : i' = i ∧ j' = m
      · obtain ⟨rfl, rfl⟩ := hc
        have h1 : i' < Fm.length := by rw [ihlen]; exact hi
        have h2 : j' < rowLen Fm i' := by
          rw [ihrow, WF_rowLen hWF hi]
          omega
        have h3 : get2 Fm i' j' = cellAt b i' j' := by
          rw [ihget]
          simp only [lt_irrefl, and_false, if_false]
          exact horig j'
        rw [get2_tickCell_self b Fm i' j' h1 h2 h3]
        simp
      · have hne : i ≠ i' ∨ m ≠ j' := by tauto
        rw [get2_tickCell_ne b Fm i m i' j' hne, ihget]
        split_ifs <;> first | rfl | omega

/-- Characterization of the outer `i` loop of `Tick` after `k`
iterations: rows below `k` hold the next generation, rows from `k` on
still hold the original state. -/
theorem tickAux (b : GameOfLifeBoard) (hWF : WF b) :
    ∀ k, k ≤ b.Rows →
      ((List.range k).foldl (tickRow b) b.state_).length = b.Rows ∧
      (∀ i, rowLen ((List.range k).foldl (tickRow b) b.state_) i
          = rowLen b.state_ i) ∧
      (∀ i j, get2 ((List.range k).foldl (tickRow b) b.state_) i j
          = if i < k ∧ j < b.Cols then newState b i j else cellAt b i j) := by
  intro k
  induction k with
  | zero =>
    intro _
    refine ⟨rfl, fun _ => rfl, ?_⟩
    intro i j
    simp [cellAt]
  | succ k ih =>
    intro hk
    have hk' : k ≤ b.Rows := Nat.le_of_succ_le hk
    obtain ⟨ihlen, ihrow, ihget⟩ := ih hk'
    rw [List.range_succ, List.foldl_append]
    simp only [List.foldl_cons, List.foldl_nil]
    set Gk := (List.range k).foldl (tickRow b) b.state_ with hGk
    have hkR : k < b.Rows := hk
    have horig : ∀ j', get2 Gk k j' = cellAt b k j' := by
      intro j'
      rw [ihget]
      simp
    obtain ⟨rlen, rrow, rget⟩ :=
      tickRowAux b k hWF hkR Gk ihlen ihrow horig b.Cols (le_refl _)
    have hTR : tickRow b Gk k
        = (List.range b.Cols).foldl (fun t j => tickCell b t k j) Gk := rfl
    rw [hTR]
    refine ⟨rlen, rrow, ?_⟩
    intro i j
    rw [rget, ihget]
    split_ifs <;> first | rfl | omega

theorem Rows_Tick {b : GameOfLifeBoard} (hWF : WF b) :
    (Tick b).Rows = b.Rows :=
  (tickAux b hWF b.Rows (le_refl _)).1

theorem rowLen_Tick {b : GameOfLifeBoard} (hWF : WF b) (i : Nat) :
    rowLen (Tick b).state_ i = rowLen b.state_ i :=
  (tickAux b hWF b.Rows (le_refl _)).2.1 i

theorem Cols_Tick {b : GameOfLifeBoard} (hWF : WF b) :
    (Tick b).Cols = b.Cols := by
  rw [Cols_eq_rowLen, Cols_eq_rowLen]
  exact rowLen_Tick hWF 0

theorem cellAt_Tick {b : GameOfLifeBoard} (hWF : WF b) {i j : Nat}
    (hi : i < b.Rows) (hj : j < b.Cols) :
    cellAt (Tick b) i j = newState b i j := by
  have := (tickAux b hWF b.Rows (le_refl _)).2.2 i j
  rw [cellAt, show (Tick b).state_
      = (List.range b.Rows).foldl (tickRow b) b.state_ from rfl, this]
  simp [hi, hj]

theorem cellAt_Tick_frozen {b : GameOfLifeBoard} (hWF : WF b) {i j : Nat}
    (h : ¬(i < b.Rows ∧ j < b.Cols)) :
    cellAt (Tick b) i j = cellAt b i j := by
  have := (tickAux b hWF b.Rows (le_refl _)).2.2 i j
  rw [cellAt, show (Tick b).state_
      = (List.range b.Rows).foldl (tickRow b) b.state_ from rfl, this]
  simp only [if_neg h]

theorem WF_Tick {b : GameOfLifeBoard} (hWF : WF b) : WF (Tick b) := by
  intro row hmem
  obtain ⟨i, hi, hrow⟩ := List.getElem_of_mem hmem
  have hlen : (Tick b).state_.length = b.Rows := Rows_Tick hWF
  have : rowLen (Tick b).state_ i = row.length := by
    rw [rowLen_eq, List.getElem?_eq_getElem hi, hrow]
    rfl
  rw [Cols_Tick hWF, ← WF_rowLen hWF (by omega : i < b.Rows),
    ← rowLen_Tick hWF i, this]

theorem matrix_ext (m₁ m₂ : CellStateMatrix) (hlen : m₁.length = m₂.length)
    (hrow : ∀ i, rowLen m₁ i = rowLen m₂ i)
    (hget : ∀ i j, get2 m₁ i j = get2 m₂ i j) : m₁ = m₂ := by
  apply List.ext_getElem?
  intro i
  by_cases hi : i < m₁.length
  · have hi2 : i < m₂.length := hlen ▸ hi
    rw [List.getElem?_eq_getElem hi, List.getElem?_eq_getElem hi2]
    have hr : m₁[i].length = m₂[i].length := by
      have := hrow i
      rw [rowLen_eq, rowLen_eq, List.getElem?_eq_getElem hi,
        List.getElem?_eq_getElem hi2] at this
      simpa using this
    congr 1
    apply List.ext_getElem?
    intro j
    by_cases hj : j < m₁[i].length
    · have hj2 : j < m₂[i].length := hr ▸ hj
      rw [List.getElem?_eq_getElem hj, List.getElem?_eq_getElem hj2]
      have := hget i j
      rw [get2_eq, get2_eq, List.getElem?_eq_getElem hi,
        List.getElem?_eq_getElem hi2] at this
      simp only [Option.getD_some] at this
      rw [List.getElem?_eq_getElem hj, List.getElem?_eq_getElem hj2] at this
      simpa using this
    · rw [List.getElem?_eq_none (Nat.le_of_not_lt hj),
        List.getElem?_eq_none (by omega : m₂[i].length ≤ j)]
  · rw [List.getElem?_eq_none (Nat.le_of_not_lt hi),
      List.getElem?_eq_none (by omega : m₂.length ≤ i)]

theorem board_ext {b₁ b₂ : GameOfLifeBoard}
    (h : b₁.state_ = b₂.state_) : b₁ = b₂ := by
  cases b₁
  cases b₂
  simpa using h

/-! ### Constructed boards -/

theorem Rows_mkBoard (rows cols : Nat) : (mkBoard rows cols).Rows = rows := by
  simp [mkBoard, GameOfLifeBoard.Rows]

theorem mem_mkBoard_length {rows cols : Nat} {row : CellStateVec}
    (h : row ∈ (mkBoard rows cols).state_) : row.length = cols := by
  have := List.eq_of_mem_replicate h
  rw [this]
  exact List.length_replicate ..

theorem Cols_mkBoard {rows : Nat} (cols : Nat) (h : 0 < rows) :
    (mkBoard rows cols).Cols = cols := by
  rw [Cols_eq_rowLen, rowLen_eq]
  have : (mkBoard rows cols).state_[0]? = some (List.replicate cols false) := by
    simp [mkBoard, List.getElem?_replicate, h]
  rw [this]
  simp

theorem cellAt_mkBoard (rows cols i j : Nat) :
    cellAt (mkBoard rows cols) i j = false := by
  rw [cellAt, get2_eq]
  rcases Nat.lt_or_ge i rows with hi | hi
  · simp only [mkBoard, List.getElem?_replicate, hi, if_pos,
      Option.getD_some]
    split_ifs <;> rfl
  · simp [mkBoard, List.getElem?_replicate, Nat.not_lt_of_ge hi]

theorem WF_mkBoard (rows cols : Nat) : WF (mkBoard rows cols) := by
  intro row hmem
  rw [mem_mkBoard_length hmem]
  rcases Nat.eq_zero_or_pos rows with h0 | h0
  · subst h0
    exact absurd hmem (by simp [mkBoard])
  · rw [Cols_mkBoard cols h0]

theorem cellAt_out {b : GameOfLifeBoard} (hWF : WF b) {i j : Nat}
    (h : ¬(i < b.Rows ∧ j < b.Cols)) : cellAt b i j = false := by
  rcases Nat.lt_or_ge i b.Rows with hi | hi
  · have hj : b.Cols ≤ j := by omega
    rw [cellAt, get2]
    apply List.getD_eq_default
    have := WF_rowLen hWF hi
    rw [rowLen] at this
    omega
  · rw [cellAt, get2, List.getD_eq_default b.state_ [] hi]
    rfl

theorem WF_writeCell {b : GameOfLifeBoard} (hWF : WF b) (i j : Nat)
    (v : Bool) : WF (writeCell b i j v) := by
  intro row hmem
  obtain ⟨k, hk, hrow⟩ := List.getElem_of_mem hmem
  have h1 : rowLen (writeCell b i j v).state_ k = row.length := by
    rw [rowLen_eq, List.getElem?_eq_getElem hk, hrow]
    rfl
  have h2 : rowLen (writeCell b i j v).state_ k = rowLen b.state_ k :=
    rowLen_setCell b.state_ i j v k
  have h3 : (writeCell b i j v).Cols = b.Cols := by
    rw [Cols_eq_rowLen, Cols_eq_rowLen]
    exact rowLen_setCell b.state_ i j v 0
  have hkR : k < b.Rows := by
    have : (writeCell b i j v).state_.length = b.state_.length :=
      length_setCell b.state_ i j v
    rw [GameOfLifeBoard.Rows]
    omega
  rw [h3, ← WF_rowLen hWF hkR, ← h2, h1]

/-! ### All-dead boards -/

theorem cellAtI_all_dead {b : GameOfLifeBoard}
    (h : ∀ i j, cellAt b i j = false) (x y : Int) :
    cellAtI b x y = false := by
  rw [cellAtI]
  split_ifs with hc
  · exact h _ _
  · rfl

theorem count_all_dead {b : GameOfLifeBoard}
    (h : ∀ i j, cellAt b i j = false) (r c : Nat) :
    CountLiveNeighbors b r c = 0 := by
  simp [CountLiveNeighbors, kDirections, cellAtI_all_dead h]

theorem foldl_congr_id {α β : Type} (l : List α) (f : β → α → β)
    (h : ∀ t a, f t a = t) (b : β) : l.foldl f b = b := by
  induction l generalizing b with
  | nil => rfl
  | cons a l ih => rw [List.foldl_cons, h, ih]

theorem tickCell_all_dead {b : GameOfLifeBoard}
    (h : ∀ i j, cellAt b i j = false) (tmp : CellStateMatrix) (i j : Nat) :
    tickCell b tmp i j = tmp := by
  simp [tickCell, h i j, count_all_dead h i j]

/-! ### Claim theorems -/

/-- Claim C1: for every validly constructed board and in-range cell, the
post-`Tick` state of the cell follows the birth/death/survival rule as a
function of its pre-`Tick` state and live-neighbor count. -/
theorem claim_C1_tick_rule (b : GameOfLifeBoard) (r c : Nat) (hWF : WF b)
    (hr : r < b.Rows) (hc : c < b.Cols) :
    (cellAt b r c = true → CountLiveNeighbors b r c < 2 →
      cellAt (Tick b) r c = false) ∧
    (cellAt b r c = true → 3 < CountLiveNeighbors b r c →
      cellAt (Tick b) r c = false) ∧
    (cellAt b r c = true →
      (CountLiveNeighbors b r c = 2 ∨ CountLiveNeighbors b r c = 3) →
      cellAt (Tick b) r c = true) ∧
    (cellAt b r c = false → CountLiveNeighbors b r c = 3 →
      cellAt (Tick b) r c = true) ∧
    (cellAt b r c = false → CountLiveNeighbors b r c ≠ 3 →
      cellAt (Tick b) r c = false) := by
  have h := cellAt_Tick hWF hr hc
  rw [newState, nextCellState] at h
  refine ⟨?_, ?_, ?_, ?_, ?_⟩ <;> intro ha hn <;> rw [h, ha] <;> simp <;>
    omega

/-- Claim C1 witness: the rule evaluated on the 5×5 blinker board at the
center cell (alive, 2 neighbors, survives). -/
theorem claim_C1_tick_rule_witness :
    cellAt (Tick blinkerH5) 2 2 = true :=
  (claim_C1_tick_rule blinkerH5 2 2 (by decide) (by decide)
    (by decide)).2.2.1 (by decide) (by decide)

/-- Claim C9: `Tick` on an all-dead board is the identity — the all-dead
board is a fixed point of the transition. -/
theorem claim_C9_all_dead_fixed (b : GameOfLifeBoard)
    (h : ∀ i j, cellAt b i j = false) : Tick b = b := by
  apply board_ext
  show (List.range b.Rows).foldl (tickRow b) b.state_ = b.state_
  apply foldl_congr_id
  intro t i
  show (List.range b.Cols).foldl (fun t j => tickCell b t i j) t = t
  apply foldl_congr_id
  intro t j
  exact tickCell_all_dead h t i j

/-- Claim C9 witness: a concrete all-dead 2×3 board is a `Tick` fixed
point. -/
theorem claim_C9_all_dead_fixed_witness :
    Tick (mkBoard 2 3) = mkBoard 2 3 :=
  claim_C9_all_dead_fixed (mkBoard 2 3) (cellAt_mkBoard 2 3)

/-- Claim C6: `Board(rows, cols)` yields exactly `rows` rows, each of
exactly `cols` entries, with every cell dead. -/
theorem claim_C6_mkBoard_dead (rows cols : Nat) :
    (mkBoard rows cols).Rows = rows ∧
    (∀ row ∈ (mkBoard rows cols).state_, row.length = cols) ∧
    (0 < rows → (mkBoard rows cols).Cols = cols) ∧
    (∀ i j, cellAt (mkBoard rows cols) i j = false) :=
  ⟨Rows_mkBoard rows cols, fun _ h => mem_mkBoard_length h,
    Cols_mkBoard cols, cellAt_mkBoard rows cols⟩

/-- Claim C7: the constructor takes `std::size_t` dimensions, so its
domain is exactly the non-negative integers — negative dimensions are
made impossible by the interface — and for every input in that domain the
board is built with exactly the requested dimensions, never clamped to
some other value. -/
theorem claim_C7_no_negative_no_clamp (num_rows num_cols : Nat) :
    ((0 : Int) ≤ (num_rows : Int) ∧ (0 : Int) ≤ (num_cols : Int)) ∧
    (mkBoard num_rows num_cols).Rows = num_rows ∧
    (∀ row ∈ (mkBoard num_rows num_cols).state_,
      row.length = num_cols) :=
  ⟨⟨Int.ofNat_nonneg num_rows, Int.ofNat_nonneg num_cols⟩,
    Rows_mkBoard num_rows num_cols, fun _ h => mem_mkBoard_length h⟩

/-! ### The double-buffered reference (`TickSpec`) -/

theorem length_TickSpec (b : GameOfLifeBoard) :
    (TickSpec b).state_.length = b.Rows := by
  simp [TickSpec]

theorem rowLen_TickSpec (b : GameOfLifeBoard) (i : Nat) :
    rowLen (TickSpec b).state_ i = if i < b.Rows then b.Cols else 0 := by
  rw [rowLen_eq]
  rcases Nat.lt_or_ge i b.Rows with hi | hi
  · have : (TickSpec b).state_[i]?
        = some ((List.range b.Cols).map fun j => newState b i j) := by
      simp [TickSpec, List.getElem?_map, List.getElem?_range hi]
    rw [this]
    simp [hi]
  · have : (TickSpec b).state_[i]? = none := by
      apply List.getElem?_eq_none
      rw [length_TickSpec]
      exact hi
    rw [this, if_neg (Nat.not_lt_of_ge hi)]
    simp

theorem get2_TickSpec (b : GameOfLifeBoard) {i j : Nat} (hi : i < b.Rows)
    (hj : j < b.Cols) : get2 (TickSpec b).state_ i j = newState b i j := by
  rw [get2_eq]
  have h1 : (TickSpec b).state_[i]?
      = some ((List.range b.Cols).map fun j => newState b i j) := by
    simp [TickSpec, List.getElem?_map, List.getElem?_range hi]
  rw [h1]
  simp [List.getElem?_map, List.getElem?_range hj]

theorem get2_TickSpec_out (b : GameOfLifeBoard) {i j : Nat}
    (h : ¬(i < b.Rows ∧ j < b.Cols)) :
    get2 (TickSpec b).state_ i j = false := by
  rw [get2_eq]
  rcases Nat.lt_or_ge i b.Rows with hi | hi
  · have hj : b.Cols ≤ j := by omega
    have h1 : (TickSpec b).state_[i]?
        = some ((List.range b.Cols).map fun j => newState b i j) := by
      simp [TickSpec, List.getElem?_map, List.getElem?_range hi]
    rw [h1]
    have h2 : ((List.range b.Cols).map fun j => newState b i j)[j]?
        = none := by
      apply List.getElem?_eq_none
      simpa using hj
    simp [h2]
  · have h1 : (TickSpec b).state_[i]? = none := by
      apply List.getElem?_eq_none
      rw [length_TickSpec]
      exact hi
    simp [h1]

/-- Claim C3: the in-place-on-a-copy implementation of `Tick` is
extensionally equal to the pure double-buffered reference that maps the
transition rule over a frozen snapshot of the pre-tick grid. -/
theorem claim_C3_tick_refines_spec (b : GameOfLifeBoard) (hWF : WF b) :
    Tick b = TickSpec b := by
  apply board_ext
  apply matrix_ext
  · rw [show (Tick b).state_.length = (Tick b).Rows from rfl,
      Rows_Tick hWF, length_TickSpec]
  · intro i
    rw [rowLen_Tick hWF i, rowLen_TickSpec]
    rcases Nat.lt_or_ge i b.Rows with hi | hi
    · rw [WF_rowLen hWF hi, if_pos hi]
    · rw [if_neg (by omega), rowLen_eq,
        List.getElem?_eq_none (by simpa using hi)]
      rfl
  · intro i j
    by_cases h : i < b.Rows ∧ j < b.Cols
    · rw [show get2 (Tick b).state_ i j = cellAt (Tick b) i j from rfl,
        cellAt_Tick hWF h.1 h.2, get2_TickSpec b h.1 h.2]
    · rw [show get2 (Tick b).state_ i j = cellAt (Tick b) i j from rfl,
        cellAt_Tick_frozen hWF h, get2_TickSpec_out b h]
      exact cellAt_out hWF h

/-- Claim C3 witness: the refinement evaluated on the concrete blinker
board. -/
theorem claim_C3_tick_refines_spec_witness :
    Tick blinkerH5 = TickSpec blinkerH5 :=
  claim_C3_tick_refines_spec blinkerH5 (by decide)

/-! ### Shape invariants along any use of the board -/

theorem WF_of_shape {b : GameOfLifeBoard} {cols : Nat}
    (h : ∀ row ∈ b.state_, row.length = cols) : WF b := by
  intro row hmem
  rw [h row hmem]
  obtain ⟨m⟩ := b
  cases m with
  | nil => exact absurd hmem (by simp)
  | cons r rest =>
    have := h r (by simp)
    simp [GameOfLifeBoard.Cols, this]

theorem mem_length_of_rowLen {m : CellStateMatrix} {cols : Nat}
    (h : ∀ i, i < m.length → rowLen m i = cols) :
    ∀ row ∈ m, row.length = cols := by
  intro row hmem
  obtain ⟨k, hk, hrow⟩ := List.getElem_of_mem hmem
  have := h k hk
  rw [rowLen_eq, List.getElem?_eq_getElem hk, hrow] at this
  simpa using this

/-- Claim C5: every reachable board (constructed with `mkBoard rows cols`
then subjected to any number of `Tick`s and in-range writes) is a
rectangular `rows × cols` matrix, and `Rows`/`Cols` are unchanged by
`Tick`. -/
theorem claim_C5_rectangular_invariant (rows cols : Nat)
    (b : GameOfLifeBoard) (h : Reached rows cols b) :
    b.Rows = rows ∧
    (∀ row ∈ b.state_, row.length = cols) ∧
    (Tick b).Rows = b.Rows ∧ (Tick b).Cols = b.Cols := by
  have main : b.Rows = rows ∧ ∀ row ∈ b.state_, row.length = cols := by
    induction h with
    | init =>
      exact ⟨Rows_mkBoard rows cols, fun _ hm => mem_mkBoard_length hm⟩
    | tick hr ih =>
      rename_i b'
      obtain ⟨ihR, ihL⟩ := ih
      have hWF : WF b' := WF_of_shape ihL
      constructor
      · rw [Rows_Tick hWF, ihR]
      · apply mem_length_of_rowLen
        intro i hi
        rw [rowLen_Tick hWF i]
        have hib : i < b'.Rows := by
          have : (Tick b').state_.length = (Tick b').Rows := rfl
          rw [show (Tick b').state_.length = (Tick b').Rows from rfl,
            Rows_Tick hWF] at hi
          exact hi
        rw [WF_rowLen hWF hib]
        rcases Nat.eq_zero_or_pos b'.Rows with h0 | h0
        · omega
        · rw [Cols_eq_rowLen]
          have := WF_rowLen hWF h0
          rw [this, ← ihL _ (List.getElem_mem h0)]
          rw [Cols_eq_rowLen, rowLen_eq, List.getElem?_eq_getElem h0]
          rfl
    | write i j v hr hi hj ih =>
      rename_i b'
      obtain ⟨ihR, ihL⟩ := ih
      constructor
      · have hst : (writeCell b' i j v).state_ = setCell b'.state_ i j v :=
          rfl
        show (writeCell b' i j v).state_.length = rows
        rw [hst, length_setCell]
        exact ihR
      · apply mem_length_of_rowLen
        intro k hk
        rw [show (writeCell b' i j v).state_ = setCell b'.state_ i j v
            from rfl, rowLen_setCell]
        have hkb : k < b'.state_.length := by
          rw [show (writeCell b' i j v).state_ = setCell b'.state_ i j v
              from rfl, length_setCell] at hk
          exact hk
        rw [rowLen_eq, List.getElem?_eq_getElem hkb]
        simpa using ihL _ (List.getElem_mem hkb)
  have hWF : WF b := WF_of_shape main.2
  exact ⟨main.1, main.2, Rows_Tick hWF, Cols_Tick hWF⟩

/-- Claim C5 witness: the invariant on a concrete reachable board:
construct 3×4, write a cell, tick. -/
theorem claim_C5_rectangular_invariant_witness :
    (Tick (writeCell (mkBoard 3 4) 1 2 true)).Rows = 3 ∧
    (∀ row ∈ (Tick (writeCell (mkBoard 3 4) 1 2 true)).state_,
      row.length = 4) := by
  have h : Reached 3 4 (Tick (writeCell (mkBoard 3 4) 1 2 true)) :=
    Reached.tick (Reached.write 1 2 true Reached.init (by decide)
      (by decide))
  have := claim_C5_rectangular_invariant 3 4 _ h
  exact ⟨this.1, this.2.1⟩

/-! ### Neighbor counting against the spec's offset set -/

theorem foldl_count {α : Type} (p : α → Bool) (l : List α) :
    ∀ n : Nat, l.foldl (fun n a => if p a then n + 1 else n) n
      = n + l.countP p := by
  induction l with
  | nil => intro n; simp
  | cons a l ih =>
    intro n
    rw [List.foldl_cons, List.countP_cons]
    split_ifs with h <;> rw [ih] <;> omega

theorem count_eq_countP (b : GameOfLifeBoard) (r c : Nat) :
    CountLiveNeighbors b r c
      = kDirections.countP
          (fun d => cellAtI b ((r : Int) + d.1) ((c : Int) + d.2)) := by
  rw [CountLiveNeighbors, foldl_count, Nat.zero_add]

/-- Claim C2: `CountLiveNeighbors` counts exactly the live cells among
the 8 surrounding positions, off-board positions counting as dead; in
particular a live cell at `(0, 0)` with no other live cell has 0 live
neighbors (hard edge, no wraparound). -/
theorem claim_C2_neighbor_count :
    (∀ (b : GameOfLifeBoard) (r c : Nat), r < b.Rows → c < b.Cols →
      CountLiveNeighbors b r c = specNeighborCount b r c) ∧
    (∀ b : GameOfLifeBoard, cellAt b 0 0 = true →
      (∀ i j : Nat, ¬(i = 0 ∧ j = 0) → cellAt b i j = false) →
      CountLiveNeighbors b 0 0 = 0) := by
  constructor
  · intro b r c _ _
    rw [count_eq_countP, specNeighborCount]
    have hperm : kDirections.Perm specOffsets := by decide
    exact hperm.countP_eq _
  · intro b _ hother
    have key : ∀ x y : Int, ¬(x = 0 ∧ y = 0) → cellAtI b x y = false := by
      intro x y hxy
      rw [cellAtI]
      split_ifs with hc
      · apply hother
        intro ⟨h1, h2⟩
        exact hxy ⟨by omega, by omega⟩
      · rfl
    rw [count_eq_countP]
    apply List.countP_eq_zero.mpr
    intro d hd
    fin_cases hd <;> simp [key]

/-- Claim C2 witness: the spec count at the blinker center and the
zero-neighbor count on the 1×1 live-origin board. -/
theorem claim_C2_neighbor_count_witness :
    CountLiveNeighbors blinkerH5 2 2 = specNeighborCount blinkerH5 2 2 ∧
    CountLiveNeighbors originOnly 0 0 = 0 :=
  ⟨claim_C2_neighbor_count.1 blinkerH5 2 2 (by decide) (by decide),
   claim_C2_neighbor_count.2 originOnly (by decide)
     (fun i j hij => by
       rw [cellAt, get2_eq]
       match i, j with
       | 0, 0 => exact absurd ⟨rfl, rfl⟩ hij
       | 0, j + 1 => rfl
       | i + 1, j => rfl)⟩

/-! ### The seeding collaborator -/

theorem Rows_writeCell (b : GameOfLifeBoard) (i j : Nat) (v : Bool) :
    (writeCell b i j v).Rows = b.Rows :=
  length_setCell b.state_ i j v

theorem Cols_writeCell (b : GameOfLifeBoard) (i j : Nat) (v : Bool) :
    (writeCell b i j v).Cols = b.Cols := by
  rw [Cols_eq_rowLen, Cols_eq_rowLen]
  exact rowLen_setCell b.state_ i j v 0

theorem cellAt_writeCell {b : GameOfLifeBoard} (hWF : WF b) {y x : Nat}
    (hy : y < b.Rows) (hx : x < b.Cols) (i j : Nat) :
    cellAt (writeCell b y x true) i j
      = if i = y ∧ j = x then true else cellAt b i j := by
  by_cases hij : i = y ∧ j = x
  · obtain ⟨rfl, rfl⟩ := hij
    rw [if_pos ⟨rfl, rfl⟩]
    exact get2_setCell_self b.state_ i j true hy
      (by rw [WF_rowLen hWF hy]; exact hx)
  · rw [if_neg hij]
    exact get2_setCell_ne b.state_ y x i j true (by tauto)

theorem InitializeBoard_ok (l : List Position2D) :
    ∀ b : GameOfLifeBoard, WF b →
      (∀ q ∈ l, q.y < b.Rows ∧ q.x < b.Cols) →
      InitializeBoard l b = .ok (applySeeds l b) := by
  induction l with
  | nil => intro b _ _; rfl
  | cons q l ih =>
    intro b hWF hrange
    have hq := hrange q (by simp)
    rw [InitializeBoard, if_neg (by omega)]
    rw [show applySeeds (q :: l) b
        = applySeeds l (writeCell b q.y q.x true) from rfl]
    apply ih _ (WF_writeCell hWF q.y q.x true)
    intro q' hq'
    rw [Rows_writeCell, Cols_writeCell]
    exact hrange q' (List.mem_cons_of_mem _ hq')

theorem cellAt_applySeeds (l : List Position2D) :
    ∀ b : GameOfLifeBoard, WF b →
      (∀ q ∈ l, q.y < b.Rows ∧ q.x < b.Cols) →
      ∀ i j, cellAt (applySeeds l b) i j
        = (cellAt b i j || decide (∃ q ∈ l, q.y = i ∧ q.x = j)) := by
  induction l with
  | nil => intro b _ _ i j; simp [applySeeds]
  | cons q l ih =>
    intro b hWF hrange i j
    have hq := hrange q (by simp)
    rw [show applySeeds (q :: l) b
        = applySeeds l (writeCell b q.y q.x true) from rfl]
    rw [ih _ (WF_writeCell hWF q.y q.x true)
      (fun q' hq' => by
        rw [Rows_writeCell, Cols_writeCell]
        exact hrange q' (List.mem_cons_of_mem _ hq'))]
    rw [cellAt_writeCell hWF hq.1 hq.2 i j]
    by_cases hij : i = q.y ∧ j = q.x
    · obtain ⟨rfl, rfl⟩ := hij
      rw [if_pos ⟨rfl, rfl⟩]
      have : (∃ q' ∈ q :: l, q'.y = q.y ∧ q'.x = q.x) :=
        ⟨q, by simp, rfl, rfl⟩
      simp [this]
    · rw [if_neg hij]
      have hqs : (∃ q' ∈ q :: l, q'.y = i ∧ q'.x = j)
          ↔ (∃ q' ∈ l, q'.y = i ∧ q'.x = j) := by
        constructor
        · rintro ⟨q', hq', hyx⟩
          rcases List.mem_cons.mp hq' with rfl | hmem
          · exact absurd ⟨hyx.1.symm, hyx.2.symm⟩ hij
          · exact ⟨q', hmem, hyx⟩
        · rintro ⟨q', hmem, hyx⟩
          exact ⟨q', List.mem_cons_of_mem _ hmem, hyx⟩
      rw [decide_eq_decide.mpr hqs]

theorem InitializeBoard_error (l₁ : List Position2D) :
    ∀ (b : GameOfLifeBoard) (p : Position2D) (l₂ : List Position2D),
      (∀ q ∈ l₁, q.y < b.Rows ∧ q.x < b.Cols) →
      (b.Rows ≤ p.y ∨ b.Cols ≤ p.x) →
      InitializeBoard (l₁ ++ p :: l₂) b = .error kOutOfBoundsMsg := by
  induction l₁ with
  | nil =>
    intro b p l₂ _ hout
    rw [List.nil_append, InitializeBoard, if_pos (by omega)]
  | cons q l₁ ih =>
    intro b p l₂ hrange hout
    have hq := hrange q (by simp)
    rw [List.cons_append, InitializeBoard, if_neg (by omega)]
    apply ih
    · intro q' hq'
      rw [Rows_writeCell, Cols_writeCell]
      exact hrange q' (List.mem_cons_of_mem _ hq')
    · rw [Rows_writeCell, Cols_writeCell]
      exact hout

/-- Claim C10: `InitializeBoard` rejects, with an error and before
applying it, the first seed coordinate `(y, x)` with `y ≥ Rows()` or
`x ≥ Cols()`; when every coordinate is in range it succeeds and the
resulting board is live exactly at the seeded cells (plus whatever was
already live) and nowhere else. -/
theorem claim_C10_initialize_board :
    (∀ (b : GameOfLifeBoard) (l : List Position2D), WF b →
      (∀ q ∈ l, q.y < b.Rows ∧ q.x < b.Cols) →
      InitializeBoard l b = .ok (applySeeds l b) ∧
      ∀ i j, cellAt (applySeeds l b) i j
        = (cellAt b i j || decide (∃ q ∈ l, q.y = i ∧ q.x = j))) ∧
    (∀ (b : GameOfLifeBoard) (l₁ l₂ : List Position2D) (p : Position2D),
      (∀ q ∈ l₁, q.y < b.Rows ∧ q.x < b.Cols) →
      (b.Rows ≤ p.y ∨ b.Cols ≤ p.x) →
      InitializeBoard (l₁ ++ p :: l₂) b = .error kOutOfBoundsMsg) :=
  ⟨fun b l hWF hrange =>
    ⟨InitializeBoard_ok l b hWF hrange,
     cellAt_applySeeds l b hWF hrange⟩,
   fun b l₁ l₂ p hrange hout =>
    InitializeBoard_error l₁ b p l₂ hrange hout⟩

/-- Claim C10 witness: accepting an in-range seed on a 2×2 board and
rejecting an out-of-range one. -/
theorem claim_C10_initialize_board_witness :
    InitializeBoard [⟨0, 1⟩] (mkBoard 2 2)
      = .ok (applySeeds [⟨0, 1⟩] (mkBoard 2 2)) ∧
    InitializeBoard [⟨9, 9⟩] (mkBoard 2 2) = .error kOutOfBoundsMsg :=
  ⟨(claim_C10_initialize_board.1 (mkBoard 2 2) [⟨0, 1⟩] (by decide)
      (by decide)).1,
   claim_C10_initialize_board.2 (mkBoard 2 2) [] [] ⟨9, 9⟩ (by decide)
     (by decide)⟩

/-! ### The checked embedding agrees with `Tick` -/

theorem get2Chk_eq {m : CellStateMatrix} {i j : Nat} (hi : i < m.length)
    (hj : j < rowLen m i) : get2Chk m i j = some (get2 m i j) := by
  rw [get2Chk, List.getElem?_eq_getElem hi, Option.some_bind]
  have hj' : j < m[i].length := by
    rw [rowLen_eq, List.getElem?_eq_getElem hi] at hj
    simpa using hj
  rw [List.getElem?_eq_getElem hj', get2_eq,
    List.getElem?_eq_getElem hi, Option.getD_some,
    List.getElem?_eq_getElem hj', Option.getD_some]

theorem setCellChk_eq {m : CellStateMatrix} {i j : Nat} (v : Bool)
    (hi : i < m.length) (hj : j < rowLen m i) :
    setCellChk m i j v = some (setCell m i j v) := by
  rw [setCellChk, List.getElem?_eq_getElem hi, Option.some_bind]
  have hj' : j < m[i].length := by
    rw [rowLen_eq, List.getElem?_eq_getElem hi] at hj
    simpa using hj
  rw [if_pos hj', setCell]
  have : m.getD i [] = m[i] := by
    rw [List.getD_eq_getElem?_getD, List.getElem?_eq_getElem hi]
    rfl
  rw [this]

theorem foldlM_eq_foldl {α β : Type} (P : β → Prop) (f : β → α → Option β)
    (g : β → α → β) (l : List α)
    (hpres : ∀ t a, a ∈ l → P t → P (g t a))
    (hfg : ∀ t a, a ∈ l → P t → f t a = some (g t a)) :
    ∀ t, P t → l.foldlM f t = some (l.foldl g t) := by
  induction l with
  | nil => intro t _; rfl
  | cons a l ih =>
    intro t ht
    rw [List.foldlM_cons, hfg t a (by simp) ht]
    show (List.foldlM f (g t a) l) = _
    rw [List.foldl_cons]
    exact ih (fun t' a' ha' => hpres t' a' (List.mem_cons_of_mem _ ha'))
      (fun t' a' ha' => hfg t' a' (List.mem_cons_of_mem _ ha'))
      (g t a) (hpres t a (by simp) ht)

theorem foldl_preserve {α β : Type} (P : β → Prop) (g : β → α → β)
    (l : List α) (h : ∀ t a, a ∈ l → P t → P (g t a)) :
    ∀ t, P t → P (l.foldl g t) := by
  induction l with
  | nil => intro t ht; exact ht
  | cons a l ih =>
    intro t ht
    rw [List.foldl_cons]
    exact ih (fun t' a' ha' => h t' a' (List.mem_cons_of_mem _ ha'))
      (g t a) (h t a (by simp) ht)

theorem countChk_eq {b : GameOfLifeBoard} (hWF : WF b) (h0 : 0 < b.Rows)
    (i j : Nat) :
    CountLiveNeighborsChk b i j = some (CountLiveNeighbors b i j) := by
  rw [CountLiveNeighborsChk, List.getElem?_eq_getElem h0,
    Option.some_bind, CountLiveNeighbors]
  apply foldlM_eq_foldl (fun _ => True) _ _ _ (fun _ _ _ _ => trivial)
    _ _ trivial
  intro n d _ _
  dsimp only
  by_cases hc : 0 ≤ (i : Int) + d.1 ∧ (i : Int) + d.1 < (b.Rows : Int) ∧
      0 ≤ (j : Int) + d.2 ∧ (j : Int) + d.2 < (b.Cols : Int)
  · rw [if_pos hc]
    have hnr : ((i : Int) + d.1).toNat < b.Rows := by omega
    have hnc : ((j : Int) + d.2).toNat < rowLen b.state_
        ((i : Int) + d.1).toNat := by
      rw [WF_rowLen hWF hnr]
      omega
    rw [get2Chk_eq hnr hnc, Option.map_some']
    have hcell : cellAtI b ((i : Int) + d.1) ((j : Int) + d.2)
        = get2 b.state_ ((i : Int) + d.1).toNat ((j : Int) + d.2).toNat := by
      rw [cellAtI, if_pos hc]
      rfl
    rw [hcell]
  · rw [if_neg hc]
    have hcell : cellAtI b ((i : Int) + d.1) ((j : Int) + d.2) = false := by
      rw [cellAtI, if_neg hc]
    rw [hcell]
    simp

theorem tickCellChk_eq {b : GameOfLifeBoard} (hWF : WF b)
    {tmp : CellStateMatrix} {i j : Nat} (hi : i < b.Rows) (hj : j < b.Cols)
    (hlen : tmp.length = b.Rows)
    (hrow : ∀ k, rowLen tmp k = rowLen b.state_ k) :
    tickCellChk b tmp i j = some (tickCell b tmp i j) := by
  have h0 : 0 < b.Rows := by omega
  have hcur : get2Chk b.state_ i j = some (cellAt b i j) :=
    get2Chk_eq (m := b.state_) hi (by rw [WF_rowLen hWF hi]; exact hj)
  have hti : i < tmp.length := by omega
  have htj : j < rowLen tmp i := by
    rw [hrow i, WF_rowLen hWF hi]
    exact hj
  rw [tickCellChk]
  simp only [countChk_eq hWF h0 i j, hcur, Option.bind_eq_bind,
    Option.some_bind]
  simp only [tickCell]
  split_ifs <;> first | rfl | exact setCellChk_eq _ hti htj

theorem TickChk_eq {b : GameOfLifeBoard} (hWF : WF b) :
    TickChk b = some (Tick b) := by
  rw [TickChk]
  have main : (List.range b.Rows).foldlM
      (fun tmp i =>
        (List.range b.Cols).foldlM (fun t j => tickCellChk b t i j) tmp)
      b.state_
      = some ((List.range b.Rows).foldl (tickRow b) b.state_) := by
    apply foldlM_eq_foldl
      (fun tmp => tmp.length = b.Rows ∧
        ∀ k, rowLen tmp k = rowLen b.state_ k)
    · intro tmp i _ hP
      show (tickRow b tmp i).length = b.Rows ∧ _
      rw [tickRow]
      constructor
      · rw [show ((List.range b.Cols).foldl (fun t j => tickCell b t i j)
            tmp).length = b.Rows ↔ _ from Iff.rfl]
        have := foldl_preserve (fun t : CellStateMatrix =>
            t.length = b.Rows ∧ ∀ k, rowLen t k = rowLen b.state_ k)
          (fun t j => tickCell b t i j) (List.range b.Cols)
          (fun t j _ hp => ⟨by rw [length_tickCell]; exact hp.1,
            fun k => by rw [rowLen_tickCell]; exact hp.2 k⟩) tmp hP
        exact this.1
      · have := foldl_preserve (fun t : CellStateMatrix =>
            t.length = b.Rows ∧ ∀ k, rowLen t k = rowLen b.state_ k)
          (fun t j => tickCell b t i j) (List.range b.Cols)
          (fun t j _ hp => ⟨by rw [length_tickCell]; exact hp.1,
            fun k => by rw [rowLen_tickCell]; exact hp.2 k⟩) tmp hP
        exact this.2
    · intro tmp i hiR hP
      have hi : i < b.Rows := List.mem_range.mp hiR
      show _ = some (tickRow b tmp i)
      rw [tickRow]
      apply foldlM_eq_foldl
        (fun t : CellStateMatrix => t.length = b.Rows ∧
          ∀ k, rowLen t k = rowLen b.state_ k)
      · intro t j _ hp
        exact ⟨by rw [length_tickCell]; exact hp.1,
          fun k => by rw [rowLen_tickCell]; exact hp.2 k⟩
      · intro t j hjR hp
        exact tickCellChk_eq hWF hi (List.mem_range.mp hjR) hp.1 hp.2
      · exact hP
    · exact ⟨rfl, fun _ => rfl⟩
  rw [main]
  rfl

/-- Claim C4: `Tick` is total on every validly constructed board — the
fully bounds-checked re-execution `TickChk` performs no out-of-range
access and returns exactly `Tick`'s result — and on boards with zero
rows or zero columns (in particular 0×0) `Tick` is a no-op. -/
theorem claim_C4_tick_total (b : GameOfLifeBoard) (hWF : WF b) :
    TickChk b = some (Tick b) ∧
    (b.Rows = 0 → Tick b = b) ∧
    (b.Cols = 0 → Tick b = b) := by
  refine ⟨TickChk_eq hWF, ?_, ?_⟩
  · intro h0
    apply board_ext
    show (List.range b.Rows).foldl (tickRow b) b.state_ = b.state_
    rw [h0]
    rfl
  · intro h0
    apply board_ext
    show (List.range b.Rows).foldl (tickRow b) b.state_ = b.state_
    apply foldl_congr_id
    intro t i
    show (List.range b.Cols).foldl (fun t j => tickCell b t i j) t = t
    rw [h0]
    rfl

/-- Claim C4 witness: the checked tick on the 0×0 board succeeds and the
0×0 board is a fixed point. -/
theorem claim_C4_tick_total_witness :
    TickChk (mkBoard 0 0) = some (Tick (mkBoard 0 0)) ∧
    Tick (mkBoard 0 0) = mkBoard 0 0 :=
  ⟨(claim_C4_tick_total (mkBoard 0 0) (by decide)).1,
   (claim_C4_tick_total (mkBoard 0 0) (by decide)).2.1 (by decide)⟩

/-! ### The blinker oscillator -/

theorem cellAtI_char {b : GameOfLifeBoard} {P : Nat → Nat → Prop}
    (hcell : ∀ i, i < b.Rows → ∀ j, j < b.Cols →
      (cellAt b i j = true ↔ P i j)) (x y : Int) :
    (cellAtI b x y = true)
      ↔ (0 ≤ x ∧ x < (b.Rows : Int) ∧ 0 ≤ y ∧ y < (b.Cols : Int) ∧
          P x.toNat y.toNat) := by
  rw [cellAtI]
  split_ifs with hc
  · rw [hcell x.toNat (by omega) y.toNat (by omega)]
    constructor
    · intro hP
      exact ⟨hc.1, hc.2.1, hc.2.2.1, hc.2.2.2, hP⟩
    · intro h
      exact h.2.2.2.2
  · constructor
    · intro h
      exact absurd h (by simp)
    · intro h
      exact absurd ⟨h.1, h.2.1, h.2.2.1, h.2.2.2.1⟩ hc

theorem bool_eq_of_iff {a b : Bool} (h : a = true ↔ b = true) : a = b := by
  cases a <;> cases b <;> simp_all

set_option maxHeartbeats 1000000 in
/-- One `Tick` turns a lone horizontal triple centered at `(r, c)` into
the lone vertical triple centered at `(r, c)`. -/
theorem blinker_step_H {b : GameOfLifeBoard} (hWF : WF b) {r c : Nat}
    (hr1 : 1 ≤ r) (hr2 : r + 1 < b.Rows) (hc1 : 1 ≤ c)
    (hc2 : c + 1 < b.Cols)
    (hcell : ∀ i, i < b.Rows → ∀ j, j < b.Cols →
      (cellAt b i j = true ↔ (i = r ∧ (j + 1 = c ∨ j = c ∨ j = c + 1)))) :
    ∀ i, i < b.Rows → ∀ j, j < b.Cols →
      (cellAt (Tick b) i j = true
        ↔ (j = c ∧ (i + 1 = r ∨ i = r ∨ i = r + 1))) := by
  intro i hi j hj
  have hb := hcell i hi j hj
  have emm : cellAtI b ((i : Int) + -1) ((j : Int) + -1)
      = decide (i = r + 1 ∧ (j = c ∨ j = c + 1 ∨ j = c + 2)) := by
    apply bool_eq_of_iff
    rw [cellAtI_char hcell, decide_eq_true_eq]
    omega
  have emp : cellAtI b ((i : Int) + -1) ((j : Int) + 1)
      = decide (i = r + 1 ∧ (j + 2 = c ∨ j + 1 = c ∨ j = c)) := by
    apply bool_eq_of_iff
    rw [cellAtI_char hcell, decide_eq_true_eq]
    omega
  have epm : cellAtI b ((i : Int) + 1) ((j : Int) + -1)
      = decide (i + 1 = r ∧ (j = c ∨ j = c + 1 ∨ j = c + 2)) := by
    apply bool_eq_of_iff
    rw [cellAtI_char hcell, decide_eq_true_eq]
    omega
  have epp : cellAtI b ((i : Int) + 1) ((j : Int) + 1)
      = decide (i + 1 = r ∧ (j + 2 = c ∨ j + 1 = c ∨ j = c)) := by
    apply bool_eq_of_iff
    rw [cellAtI_char hcell, decide_eq_true_eq]
    omega
  have emz : cellAtI b ((i : Int) + -1) ((j : Int) + 0)
      = decide (i = r + 1 ∧ (j + 1 = c ∨ j = c ∨ j = c + 1)) := by
    apply bool_eq_of_iff
    rw [cellAtI_char hcell, decide_eq_true_eq]
    omega
  have ezm : cellAtI b ((i : Int) + 0) ((j : Int) + -1)
      = decide (i = r ∧ (j = c ∨ j = c + 1 ∨ j = c + 2)) := by
    apply bool_eq_of_iff
    rw [cellAtI_char hcell, decide_eq_true_eq]
    omega
  have epz : cellAtI b ((i : Int) + 1) ((j : Int) + 0)
      = decide (i + 1 = r ∧ (j + 1 = c ∨ j = c ∨ j = c + 1)) := by
    apply bool_eq_of_iff
    rw [cellAtI_char hcell, decide_eq_true_eq]
    omega
  have ezp : cellAtI b ((i : Int) + 0) ((j : Int) + 1)
      = decide (i = r ∧ (j + 2 = c ∨ j + 1 = c ∨ j = c)) := by
    apply bool_eq_of_iff
    rw [cellAtI_char hcell, decide_eq_true_eq]
    omega
  rw [cellAt_Tick hWF hi hj, newState, nextCellState, count_eq_countP]
  simp only [kDirections, List.countP_cons, List.countP_nil]
  rw [emm, emp, epm, epp, emz, ezm, epz, ezp]
  simp only [decide_eq_true_eq]
  by_cases halive : cellAt b i j = true
  · rw [if_pos halive]
    simp only [decide_eq_true_eq]
    have hP := hb.mp halive
    split_ifs <;> omega
  · rw [if_neg halive]
    simp only [decide_eq_true_eq]
    have hP : ¬(i = r ∧ (j + 1 = c ∨ j = c ∨ j = c + 1)) := fun h =>
      halive (hb.mpr h)
    split_ifs <;> omega

set_option maxHeartbeats 1000000 in
/-- One `Tick` turns a lone vertical triple centered at `(r, c)` back
into the lone horizontal triple centered at `(r, c)`. -/
theorem blinker_step_V {b : GameOfLifeBoard} (hWF : WF b) {r c : Nat}
    (hr1 : 1 ≤ r) (hr2 : r + 1 < b.Rows) (hc1 : 1 ≤ c)
    (hc2 : c + 1 < b.Cols)
    (hcell : ∀ i, i < b.Rows → ∀ j, j < b.Cols →
      (cellAt b i j = true ↔ (j = c ∧ (i + 1 = r ∨ i = r ∨ i = r + 1)))) :
    ∀ i, i < b.Rows → ∀ j, j < b.Cols →
      (cellAt (Tick b) i j = true
        ↔ (i = r ∧ (j + 1 = c ∨ j = c ∨ j = c + 1))) := by
  intro i hi j hj
  have hb := hcell i hi j hj
  have emm : cellAtI b ((i : Int) + -1) ((j : Int) + -1)
      = decide (j = c + 1 ∧ (i = r ∨ i = r + 1 ∨ i = r + 2)) := by
    apply bool_eq_of_iff
    rw [cellAtI_char hcell, decide_eq_true_eq]
    omega
  have emp : cellAtI b ((i : Int) + -1) ((j : Int) + 1)
      = decide (j + 1 = c ∧ (i = r ∨ i = r + 1 ∨ i = r + 2)) := by
    apply bool_eq_of_iff
    rw [cellAtI_char hcell, decide_eq_true_eq]
    omega
  have epm : cellAtI b ((i : Int) + 1) ((j : Int) + -1)
      = decide (j = c + 1 ∧ (i + 2 = r ∨ i + 1 = r ∨ i = r)) := by
    apply bool_eq_of_iff
    rw [cellAtI_char hcell, decide_eq_true_eq]
    omega
  have epp : cellAtI b ((i : Int) + 1) ((j : Int) + 1)
      = decide (j + 1 = c ∧ (i + 2 = r ∨ i + 1 = r ∨ i = r)) := by
    apply bool_eq_of_iff
    rw [cellAtI_char hcell, decide_eq_true_eq]
    omega
  have emz : cellAtI b ((i : Int) + -1) ((j : Int) + 0)
      = decide (j = c ∧ (i = r ∨ i = r + 1 ∨ i = r + 2)) := by
    apply bool_eq_of_iff
    rw [cellAtI_char hcell, decide_eq_true_eq]
    omega
  have ezm : cellAtI b ((i : Int) + 0) ((j : Int) + -1)
      = decide (j = c + 1 ∧ (i + 1 = r ∨ i = r ∨ i = r + 1)) := by
    apply bool_eq_of_iff
    rw [cellAtI_char hcell, decide_eq_true_eq]
    omega
  have epz : cellAtI b ((i : Int) + 1) ((j : Int) + 0)
      = decide (j = c ∧ (i + 2 = r ∨ i + 1 = r ∨ i = r)) := by
    apply bool_eq_of_iff
    rw [cellAtI_char hcell, decide_eq_true_eq]
    omega
  have ezp : cellAtI b ((i : Int) + 0) ((j : Int) + 1)
      = decide (j + 1 = c ∧ (i + 1 = r ∨ i = r ∨ i = r + 1)) := by
    apply bool_eq_of_iff
    rw [cellAtI_char hcell, decide_eq_true_eq]
    omega
  rw [cellAt_Tick hWF hi hj, newState, nextCellState, count_eq_countP]
  simp only [kDirections, List.countP_cons, List.countP_nil]
  rw [emm, emp, epm, epp, emz, ezm, epz, ezp]
  simp only [decide_eq_true_eq]
  by_cases halive : cellAt b i j = true
  · rw [if_pos halive]
    simp only [decide_eq_true_eq]
    have hP := hb.mp halive
    split_ifs <;> omega
  · rw [if_neg halive]
    simp only [decide_eq_true_eq]
    have hP : ¬(j = c ∧ (i + 1 = r ∨ i = r ∨ i = r + 1)) := fun h =>
      halive (hb.mpr h)
    split_ifs <;> omega

/-- Claim C8: on any board with at least one cell of margin, a lone
horizontal blinker (row `r`, columns `c-1, c, c+1`) becomes the lone
vertical triple (column `c`, rows `r-1, r, r+1`) after one `Tick`, and
returns exactly to the original board after a second `Tick`. -/
theorem claim_C8_blinker (b : GameOfLifeBoard) (r c : Nat) (hWF : WF b)
    (hr1 : 1 ≤ r) (hr2 : r + 1 < b.Rows) (hc1 : 1 ≤ c)
    (hc2 : c + 1 < b.Cols)
    (hcell : ∀ i, i < b.Rows → ∀ j, j < b.Cols →
      (cellAt b i j = true ↔ (i = r ∧ (j + 1 = c ∨ j = c ∨ j = c + 1)))) :
    (∀ i, i < b.Rows → ∀ j, j < b.Cols →
      (cellAt (Tick b) i j = true
        ↔ (j = c ∧ (i + 1 = r ∨ i = r ∨ i = r + 1)))) ∧
    Tick (Tick b) = b := by
  have hstep1 := blinker_step_H hWF hr1 hr2 hc1 hc2 hcell
  refine ⟨hstep1, ?_⟩
  have hWT : WF (Tick b) := WF_Tick hWF
  have hRT : (Tick b).Rows = b.Rows := Rows_Tick hWF
  have hCT : (Tick b).Cols = b.Cols := Cols_Tick hWF
  have hcell2 : ∀ i, i < (Tick b).Rows → ∀ j, j < (Tick b).Cols →
      (cellAt (Tick b) i j = true
        ↔ (j = c ∧ (i + 1 = r ∨ i = r ∨ i = r + 1))) := by
    intro i hi j hj
    exact hstep1 i (by omega) j (by omega)
  have hstep2 := blinker_step_V hWT (r := r) (c := c) hr1 (by omega) hc1
    (by omega) hcell2
  apply board_ext
  apply matrix_ext
  · rw [show (Tick (Tick b)).state_.length = (Tick (Tick b)).Rows from rfl,
      Rows_Tick hWT, hRT]
    rfl
  · intro k
    rw [rowLen_Tick hWT, rowLen_Tick hWF]
  · intro i j
    by_cases h : i < b.Rows ∧ j < b.Cols
    · have h1 := hstep2 i (by omega) j (by omega)
      have h2 := hcell i h.1 j h.2
      exact bool_eq_of_iff (h1.trans h2.symm)
    · have hfr2 : cellAt (Tick (Tick b)) i j = cellAt (Tick b) i j :=
        cellAt_Tick_frozen hWT (by rw [hRT, hCT]; exact h)
      have hfr1 : cellAt (Tick b) i j = cellAt b i j :=
        cellAt_Tick_frozen hWF h
      show get2 (Tick (Tick b)).state_ i j = get2 b.state_ i j
      rw [show get2 (Tick (Tick b)).state_ i j
          = cellAt (Tick (Tick b)) i j from rfl, hfr2, hfr1]
      rfl

/-- Claim C8 witness: the concrete 5×5 horizontal blinker centered at
`(2, 2)` returns to itself after two `Tick`s. -/
theorem claim_C8_blinker_witness :
    Tick (Tick blinkerH5) = blinkerH5 :=
  (claim_C8_blinker blinkerH5 2 2 (by decide) (by decide) (by decide)
    (by decide) (by decide) (by decide)).2

end GolSpec
